import Mathlib

/-!
Verification of the task-orchestration behaviour of the
`craft-gulp-starter-kit` build configuration (`gulpfile.babel.js`).

The repository's own file declares the task graph: task names, prerequisite
lists (`gulp.task(name, deps, action)`), the two `runSequence` bodies of the
`default` and `dist` targets, the watch bindings of `serve`, the source
order of the `scripts` concatenation, and the paths removed by `clean`.
Those facts are embedded below directly from the source.

The engines that interpret that graph (gulp 3's orchestrator, run-sequence,
gulp-cache, browser-sync, del) are external libraries, not files of this
repository; their contracts are modelled from the specification's words
(batch-sequential / intra-batch-concurrent scheduling, fail-fast failure
semantics, reload-after-success watch semantics, the content cache of the
image optimizer). Every definition states in its doc comment which of the
two origins it has.
-/

namespace CraftGulp

/-- The task names registered in `gulpfile.babel.js` via `gulp.task`. -/
inductive TaskName
  | images
  | styles
  | lint
  | scripts
  | uncss
  | html
  | htmlhint
  | pageres
  | clean
  | serve
  | default
  | dist
  | pagespeed
  | generateFavicon
  | injectFaviconMarkups
  | checkForFaviconUpdate
  deriving DecidableEq, Repr

/-- The string each task is registered under in the source. -/
def taskNameStr : TaskName → String
  | .images => "images"
  | .styles => "styles"
  | .lint => "lint"
  | .scripts => "scripts"
  | .uncss => "uncss"
  | .html => "html"
  | .htmlhint => "htmlhint"
  | .pageres => "pageres"
  | .clean => "clean"
  | .serve => "serve"
  | .default => "default"
  | .dist => "dist"
  | .pagespeed => "pagespeed"
  | .generateFavicon => "generate-favicon"
  | .injectFaviconMarkups => "inject-favicon-markups"
  | .checkForFaviconUpdate => "check-for-favicon-update"

/-- Prerequisite lists exactly as declared in the source: `default` and
`dist` are declared as `gulp.task(name, ['clean'], ...)`, `serve` as
`gulp.task('serve', [], ...)`, and every other task with no prerequisite
argument. -/
def deps : TaskName → List TaskName
  | .default => [.clean]
  | .dist => [.clean]
  | _ => []

/-- The `runSequence` bodies of the source: `default` runs
`runSequence('styles', ['lint', 'scripts', 'images'], cb)` and `dist` runs
`runSequence('styles', ['lint', 'uncss', 'scripts', 'images'], cb)`; a bare
string is a singleton batch and an array is one concurrent batch. No other
task has a `runSequence` action. -/
def runSeq : TaskName → Option (List (List TaskName))
  | .default => some [[.styles], [.lint, .scripts, .images]]
  | .dist => some [[.styles], [.lint, .uncss, .scripts, .images]]
  | _ => none

/-- Modelled from the spec: the ExecutionPlan of one invocation — the
prerequisite batch first (prerequisites of a task run as one concurrent
batch before its action), then the action: for `default`/`dist` the action
is its `runSequence` batches, for every other task its own pipeline. -/
def plan (t : TaskName) : List (List TaskName) :=
  (if deps t = [] then [] else [deps t]) ++
    (match runSeq t with
     | some bs => bs
     | none => [[t]])

/-- Outcome of one task's action in one run: `none` is success, `some e`
failure with the underlying error message `e`. -/
def Outcome : Type := TaskName → Option String

/-- First failing task of a batch, with its error (the batch's tasks run
concurrently; the scheduler sees some failure if any member fails). -/
def firstFail (outcome : Outcome) : List TaskName → Option (TaskName × String)
  | [] => none
  | t :: ts =>
    match outcome t with
    | some e => some (t, e)
    | none => firstFail outcome ts

/-- Result of a whole run. -/
inductive RunResult
  | ok
  | failed (t : TaskName) (err : String)
  deriving DecidableEq, Repr

/-- Modelled from the spec: the Scheduler runs batches strictly
sequentially; if any task of a batch fails the run fails immediately with
that task's name and error, and no task of any later batch is started.
Returns the run result together with the list of tasks that were started. -/
def runPlan (outcome : Outcome) : List (List TaskName) → RunResult × List TaskName
  | [] => (.ok, [])
  | b :: rest =>
    match firstFail outcome b with
    | some (t, e) => (.failed t e, b)
    | none =>
      let r := runPlan outcome rest
      (r.1, b ++ r.2)

/-- Modelled from the spec: the run result of invoking one build target. -/
def runTarget (outcome : Outcome) (t : TaskName) : RunResult :=
  (runPlan outcome (plan t)).1

/-- Modelled from the spec: exit code 0 on full success, non-zero on any
task failure. -/
def exitCode (outcome : Outcome) (t : TaskName) : Nat :=
  match runTarget outcome t with
  | .ok => 0
  | .failed _ _ => 1

/-- Modelled from the spec: on failure the failing task's name and error
message are written to the standard error channel. -/
def stderrLines (outcome : Outcome) (t : TaskName) : List String :=
  match runTarget outcome t with
  | .ok => []
  | .failed f e => [taskNameStr f ++ ": " ++ e]

/-- Scheduler trace events: a task starting, a task finishing, and the
run reporting success (`done`). -/
inductive Ev
  | start (t : TaskName)
  | finish (t : TaskName)
  | done
  deriving DecidableEq, Repr

/-- Position of an event in a trace. -/
def evIdx (tr : List Ev) (e : Ev) : Nat :=
  tr.indexOf e

/-- One task's events are well-formed in a successful trace: it starts
once, finishes once, starts before it finishes, and finishes before the
run reports success. -/
def taskOk (tr : List Ev) (t : TaskName) : Bool :=
  tr.count (.start t) == 1 && tr.count (.finish t) == 1 &&
    decide (evIdx tr (.start t) < evIdx tr (.finish t)) &&
    decide (evIdx tr (.finish t) < evIdx tr .done)

/-- Every task of batch `b` finishes before any task of batch `c` starts. -/
def batchBefore (tr : List Ev) (b c : List TaskName) : Bool :=
  b.all fun t => c.all fun u => decide (evIdx tr (.finish t) < evIdx tr (.start u))

/-- Batches are totally ordered against each other in the trace. -/
def batchesOrdered (tr : List Ev) : List (List TaskName) → Bool
  | [] => true
  | b :: rest => (rest.all fun c => batchBefore tr b c) && batchesOrdered tr rest

/-- Modelled from the spec: the Scheduler's trace contract for a successful
run of an ExecutionPlan — batches execute strictly sequentially (every task
of an earlier batch finishes before any task of a later batch starts),
tasks within a batch are unordered among themselves, each task runs exactly
once, and every task finishes before the run reports success. -/
def validTrace (p : List (List TaskName)) (tr : List Ev) : Bool :=
  tr.count .done == 1 && p.flatten.all (taskOk tr) && batchesOrdered tr p

/-- A watch binding of the `serve` task: the watched glob patterns and the
tasks `gulp.watch` re-runs on a matching change (the trailing `reload`
argument of each binding is the reload notification, kept implicit). -/
structure WatchBinding where
  patterns : List String
  tasks : List TaskName
  deriving DecidableEq, Repr

/-- `gulp.watch(['craft/templates/**/*.twig'], ['htmlhint', reload])`. -/
def bindingTwig : WatchBinding :=
  ⟨["craft/templates/**/*.twig"], [.htmlhint]⟩

/-- `gulp.watch(['resources/styles/**/*.\x7bscss,css\x7d'], ['styles', reload])`. -/
def bindingStyles : WatchBinding :=
  ⟨["resources/styles/**/*.\x7bscss,css\x7d"], [.styles]⟩

/-- `gulp.watch(['resources/scripts/**/*.js'], ['lint', 'scripts', reload])`. -/
def bindingScripts : WatchBinding :=
  ⟨["resources/scripts/**/*.js"], [.lint, .scripts]⟩

/-- `gulp.watch(['resources/images/**/*'], ['images', reload])`. -/
def bindingImages : WatchBinding :=
  ⟨["resources/images/**/*"], [.images]⟩

/-- The four watch bindings registered by the `serve` task, exactly as in
the source. -/
def serveBindings : List WatchBinding :=
  [bindingTwig, bindingStyles, bindingScripts, bindingImages]

/-- Watch-mode events of one handled file change: a bound task running
(with its success bit) and the reload notification. -/
inductive WEv
  | run (t : TaskName) (ok : Bool)
  | reload
  deriving DecidableEq, Repr

/-- Modelled from the spec: handling one file-change event that matches a
binding runs the bound tasks once each and, only upon successful completion
of all of them, emits one reload notification afterwards; on failure no
reload is emitted. -/
def handleChange (outcome : Outcome) (b : WatchBinding) : List WEv :=
  let runs := b.tasks.map fun t => WEv.run t (outcome t).isNone
  if b.tasks.all fun t => (outcome t).isNone then runs ++ [.reload] else runs

/-- Result of one run of the `images` task: the optimized outputs in input
order, the content cache after the run, and how many times the external
optimizer tool was invoked. -/
structure ImagesRun where
  outputs : List String
  cache : List (String × String)
  toolCalls : Nat
  deriving DecidableEq, Repr

/-- Lookup in the content cache, keyed by file contents. -/
def cacheLookup : List (String × String) → String → Option String
  | [], _ => none
  | (k, v) :: rest, f => if k = f then some v else cacheLookup rest f

/-- Modelled from the spec: the `images` task pipes its files through a
content cache keyed by file contents (`$.cache($.imagemin(...))`): a file
whose contents are cached is served from the cache without invoking the
external optimizer; otherwise the optimizer `opt` is invoked once and the
result cached. -/
def runImages (opt : String → String) (cache : List (String × String)) :
    List String → ImagesRun
  | [] => ⟨[], cache, 0⟩
  | f :: fs =>
    match cacheLookup cache f with
    | some o =>
      let r := runImages opt cache fs
      ⟨o :: r.outputs, r.cache, r.toolCalls⟩
    | none =>
      let r := runImages opt ((f, opt f) :: cache) fs
      ⟨opt f :: r.outputs, r.cache, r.toolCalls + 1⟩

/-- The glob list of the `images` task's source, as in the source file. -/
def imagesSources : List String := ["resources/images/**/*"]

/-- The ordered source list of the `scripts` task, exactly as declared. -/
def scriptsSources : List String :=
  ["./node_modules/bootstrap/dist/js/bootstrap.js", "./resources/scripts/app.js"]

/-- Modelled from the spec: the ScriptBundler concatenates the contents of
its input files preserving the declared order exactly; the output stream is
the ordered sequence of per-file segments. -/
def bundleConcat (contents : String → String) (files : List String) : List String :=
  files.map contents

/-- The paths the `clean` task deletes, exactly as in the source:
`del(['.tmp', 'public/styles', 'public/scripts'], {dot: true})`. -/
def cleanPaths : List String := [".tmp", "public/styles", "public/scripts"]

/-- The same deletion targets as paths split into components. -/
def cleanPatterns : List (List String) := [[".tmp"], ["public", "styles"], ["public", "scripts"]]

/-- `root` is the path `p` itself or an ancestor of it (component-wise). -/
def pathUnder (root p : List String) : Bool :=
  match root, p with
  | [], _ => true
  | _ :: _, [] => false
  | r :: rs, q :: qs => r == q && pathUnder rs qs

/-- Modelled from the spec: `del` removes exactly the listed paths and
everything under them. A path is deleted by `clean` iff it lies under one
of the three deletion targets. -/
def cleanDeletes (p : List String) : Bool :=
  cleanPatterns.any fun r => pathUnder r p

/-- The filesystem after `clean`: every path not under a deletion target
survives unchanged. -/
def runClean (fs : List (List String)) : List (List String) :=
  fs.filter fun p => !cleanDeletes p

/-- From the source's `lint` task: the stream fails on an eslint error only
through `$.if(!browserSync.active, $.eslint.failOnError())`. -/
def lintFails (browserSyncActive : Bool) (eslintError : Bool) : Bool :=
  !browserSyncActive && eslintError

/-- The `lint` task's outcome as an `Outcome` value. -/
def lintOutcome (browserSyncActive : Bool) (eslintError : Bool) : Option String :=
  if lintFails browserSyncActive eslintError then some "ESLintError" else none

/-- A successful scheduler trace of the `default` plan in which `lint`
finishes before `scripts`. -/
def traceLintFirst : List Ev :=
  [.start .clean, .finish .clean, .start .styles, .finish .styles,
   .start .lint, .start .scripts, .start .images,
   .finish .lint, .finish .scripts, .finish .images, .done]

/-- A successful scheduler trace of the `default` plan in which `scripts`
finishes before `lint`. -/
def traceScriptsFirst : List Ev :=
  [.start .clean, .finish .clean, .start .styles, .finish .styles,
   .start .lint, .start .scripts, .start .images,
   .finish .scripts, .finish .images, .finish .lint, .done]

/-- An outcome in which exactly the `scripts` task fails. -/
def failScripts : Outcome :=
  fun t => if t = .scripts then some "Uglify SyntaxError" else none

/-- An outcome in which every task succeeds. -/
def allOk : Outcome := fun _ => none

/-- An outcome in which exactly the two remote-audit tasks fail. -/
def failAudits : Outcome :=
  fun t =>
    if t = .pagespeed ∨ t = .pageres then some "NetworkError" else none

/-- Every entry of a good content cache maps file contents to their
optimized form. -/
def CacheGood (opt : String → String) (cache : List (String × String)) : Prop :=
  ∀ kv ∈ cache, kv.2 = opt kv.1

/-- A demonstration output tree: transient styles output, prior-run image
and favicon outputs, and the temp directory. -/
def demoFs : List (List String) :=
  [[".tmp"], ["public", "styles", "app.css"], ["public", "scripts", "app.min.js"],
   ["public", "images", "logo.png"], ["public", "favicon", "favicon.ico"]]

/-- A batch has no failure exactly when every task of it succeeds. -/
theorem firstFail_eq_none_iff (outcome : Outcome) (b : List TaskName) :
    firstFail outcome b = none ↔ ∀ t ∈ b, outcome t = none := by
  induction b with
  | nil => simp [firstFail]
  | cons t ts ih =>
    cases h : outcome t with
    | some e => simp [firstFail, h]
    | none => simp [firstFail, h, ih]

/-- A reported batch failure is a genuine failure of a member task. -/
theorem firstFail_eq_some_mem (outcome : Outcome) (b : List TaskName) (t : TaskName)
    (e : String) (h : firstFail outcome b = some (t, e)) :
    t ∈ b ∧ outcome t = some e := by
  induction b with
  | nil => simp [firstFail] at h
  | cons u ts ih =>
    cases hu : outcome u with
    | some e' =>
      simp [firstFail, hu] at h
      rcases h with ⟨h1, h2⟩
      subst h1
      exact ⟨List.mem_cons_self _ _, by rw [hu, h2]⟩
    | none =>
      simp [firstFail, hu] at h
      rcases ih h with ⟨h1, h2⟩
      exact ⟨List.mem_cons_of_mem u h1, h2⟩

/-- A run succeeds exactly when every task of its plan succeeds. -/
theorem runPlan_ok_iff (outcome : Outcome) (p : List (List TaskName)) :
    (runPlan outcome p).1 = .ok ↔ ∀ t ∈ p.flatten, outcome t = none := by
  induction p with
  | nil => simp [runPlan]
  | cons b rest ih =>
    cases hf : firstFail outcome b with
    | some te =>
      rcases te with ⟨t, e⟩
      rcases firstFail_eq_some_mem outcome b t e hf with ⟨hmem, hout⟩
      simp only [runPlan, hf]
      constructor
      · intro h; exact absurd h (by simp)
      · intro h
        have := h t (by rw [List.flatten_cons]; exact List.mem_append.mpr (Or.inl hmem))
        rw [this] at hout; exact absurd hout (by simp)
    | none =>
      have hall := (firstFail_eq_none_iff outcome b).mp hf
      simp only [runPlan, hf]
      rw [ih]
      constructor
      · intro h t ht
        rcases List.mem_append.mp (by rwa [List.flatten_cons] at ht) with h1 | h1
        · exact hall t h1
        · exact h t h1
      · intro h t ht
        exact h t (by rw [List.flatten_cons]; exact List.mem_append.mpr (Or.inr ht))

/-- A reported run failure is a genuine failure of a task of the plan. -/
theorem runPlan_failed_sound (outcome : Outcome) (p : List (List TaskName))
    (t : TaskName) (e : String) (h : (runPlan outcome p).1 = .failed t e) :
    t ∈ p.flatten ∧ outcome t = some e := by
  induction p with
  | nil => simp [runPlan] at h
  | cons b rest ih =>
    cases hf : firstFail outcome b with
    | some te =>
      rcases te with ⟨t', e'⟩
      simp only [runPlan, hf] at h
      cases h
      rcases firstFail_eq_some_mem outcome b t e hf with ⟨hmem, hout⟩
      exact ⟨by rw [List.flatten_cons]; exact List.mem_append.mpr (Or.inl hmem), hout⟩
    | none =>
      simp only [runPlan, hf] at h
      rcases ih h with ⟨hmem, hout⟩
      exact ⟨by rw [List.flatten_cons]; exact List.mem_append.mpr (Or.inr hmem), hout⟩

/-- Fail-fast: if some batch of a duplicate-free plan contains a failing
task, the run fails with a genuine failing task of a batch no later than
that one, and no task of any batch after the failing batch is started. -/
theorem runPlan_fail_fast (outcome : Outcome) (p : List (List TaskName))
    (hnd : p.flatten.Nodup) (i : Nat) (b : List TaskName) (hb : p[i]? = some b)
    (t0 : TaskName) (ht0 : t0 ∈ b) (hf : outcome t0 ≠ none) :
    ∃ j t e, j ≤ i ∧ (runPlan outcome p).1 = .failed t e ∧ outcome t = some e ∧
      (∃ bj, p[j]? = some bj ∧ t ∈ bj) ∧
      ∀ k bk u, j < k → p[k]? = some bk → u ∈ bk →
        u ∉ (runPlan outcome p).2 := by
  induction p generalizing i with
  | nil => simp at hb
  | cons b1 rest ih =>
    have hnd2 : (b1 ++ rest.flatten).Nodup := by rwa [List.flatten_cons] at hnd
    rw [List.nodup_append] at hnd2
    have hnd' : rest.flatten.Nodup := hnd2.2.1
    have hdisj : ∀ u, u ∈ rest.flatten → u ∉ b1 := fun u hu hb1 => hnd2.2.2 hb1 hu
    cases hff : firstFail outcome b1 with
    | some te =>
      rcases te with ⟨t, e⟩
      rcases firstFail_eq_some_mem outcome b1 t e hff with ⟨hmem, hout⟩
      refine ⟨0, t, e, Nat.zero_le i, by simp [runPlan, hff], hout,
        ⟨b1, by simp, hmem⟩, ?_⟩
      intro k bk u hk hbk hu
      have h2 : (runPlan outcome (b1 :: rest)).2 = b1 := by simp [runPlan, hff]
      rw [h2]
      cases k with
      | zero => exact absurd hk (by omega)
      | succ k' =>
        have hbk' : rest[k']? = some bk := by simpa using hbk
        exact hdisj u (List.mem_flatten.mpr ⟨bk, List.getElem?_mem hbk', hu⟩)
    | none =>
      have hall := (firstFail_eq_none_iff outcome b1).mp hff
      cases i with
      | zero =>
        have hbb : b1 = b := by simpa using hb
        subst hbb
        exact absurd (hall t0 ht0) hf
      | succ i' =>
        have hb' : rest[i']? = some b := by simpa using hb
        rcases ih hnd' i' hb' with ⟨j', t, e, hle, hres, hout, ⟨bj, hbj, htbj⟩, hlast⟩
        refine ⟨j' + 1, t, e, by omega, ?_, hout, ⟨bj, by simpa using hbj, htbj⟩, ?_⟩
        · simpa [runPlan, hff] using hres
        · intro k bk u hk hbk hu
          cases k with
          | zero => exact absurd hk (by omega)
          | succ k' =>
            have hbk' : rest[k']? = some bk := by simpa using hbk
            have hu' : u ∉ (runPlan outcome rest).2 :=
              hlast k' bk u (by omega) hbk' hu
            have hub1 : u ∉ b1 :=
              hdisj u (List.mem_flatten.mpr ⟨bk, List.getElem?_mem hbk', hu⟩)
            have h2 : (runPlan outcome (b1 :: rest)).2 =
                b1 ++ (runPlan outcome rest).2 := by simp [runPlan, hff]
            rw [h2]
            intro hmem
            rcases List.mem_append.mp hmem with h | h
            · exact hub1 h
            · exact hu' h

/-- C1: in every valid successful trace of the `default` plan, `styles`
finishes before any of `lint`, `scripts`, `images` starts, each of the
three finishes before the run reports success, and the contract admits
both relative completion orders of the concurrent batch (shown by the two
demonstration traces). -/
theorem default_run_styles_before_parallel_batch
    (tr : List Ev) (h : validTrace (plan .default) tr = true) :
    (evIdx tr (.finish .styles) < evIdx tr (.start .lint) ∧
     evIdx tr (.finish .styles) < evIdx tr (.start .scripts) ∧
     evIdx tr (.finish .styles) < evIdx tr (.start .images)) ∧
    (evIdx tr (.finish .lint) < evIdx tr .done ∧
     evIdx tr (.finish .scripts) < evIdx tr .done ∧
     evIdx tr (.finish .images) < evIdx tr .done) ∧
    (validTrace (plan .default) traceLintFirst = true ∧
     evIdx traceLintFirst (.finish .lint) < evIdx traceLintFirst (.finish .scripts)) ∧
    (validTrace (plan .default) traceScriptsFirst = true ∧
     evIdx traceScriptsFirst (.finish .scripts) < evIdx traceScriptsFirst (.finish .lint)) := by
  refine ⟨?_, ?_, by decide, by decide⟩ <;>
  · simp [validTrace, plan, deps, runSeq, batchesOrdered, batchBefore, taskOk,
      Bool.and_eq_true, decide_eq_true_eq] at h
    omega

/-- The C1 contract applied to the concrete demonstration trace. -/
theorem default_run_styles_before_parallel_batch_at_trace :
    evIdx traceLintFirst (.finish .styles) < evIdx traceLintFirst (.start .lint) :=
  (default_run_styles_before_parallel_batch traceLintFirst (by decide)).1.1

/-- C2: for every invocation of any declared target, a failing task inside
any batch of its plan makes the whole run fail, with a genuine failing
task's name and underlying error surfaced, and no task of any batch after
the failing batch is started. -/
theorem run_fails_fast_and_surfaces_error (tt : TaskName) (outcome : Outcome)
    (i : Nat) (b : List TaskName) (hb : (plan tt)[i]? = some b)
    (t0 : TaskName) (ht0 : t0 ∈ b) (hf : outcome t0 ≠ none) :
    ∃ j t e, j ≤ i ∧ (runPlan outcome (plan tt)).1 = .failed t e ∧
      outcome t = some e ∧
      (∃ bj, (plan tt)[j]? = some bj ∧ t ∈ bj) ∧
      ∀ k bk u, j < k → (plan tt)[k]? = some bk → u ∈ bk →
        u ∉ (runPlan outcome (plan tt)).2 :=
  runPlan_fail_fast outcome (plan tt) (by cases tt <;> decide) i b hb t0 ht0 hf

/-- The C2 fail-fast contract applied to a simulated `scripts` failure in
the `default` run. -/
theorem run_fails_fast_and_surfaces_error_at_scripts :
    ∃ j t e, j ≤ 2 ∧ (runPlan failScripts (plan .default)).1 = .failed t e ∧
      failScripts t = some e ∧
      (∃ bj, (plan .default)[j]? = some bj ∧ t ∈ bj) ∧
      ∀ k bk u, j < k → (plan .default)[k]? = some bk → u ∈ bk →
        u ∉ (runPlan failScripts (plan .default)).2 :=
  run_fails_fast_and_surfaces_error .default failScripts 2
    [.lint, .scripts, .images] (by decide) .scripts (by decide) (by decide)

/-- C4: every invocation of a build target exits 0 when every task of its
plan succeeds and non-zero when any task fails, with the failing task's
name and error message written to standard error. -/
theorem exit_code_and_stderr_reflect_run (tt : TaskName) (outcome : Outcome) :
    ((∀ t ∈ (plan tt).flatten, outcome t = none) → exitCode outcome tt = 0) ∧
    ((∃ t ∈ (plan tt).flatten, outcome t ≠ none) →
      exitCode outcome tt ≠ 0 ∧
      ∃ t e, outcome t = some e ∧
        stderrLines outcome tt = [taskNameStr t ++ ": " ++ e]) := by
  constructor
  · intro h
    have hok : (runPlan outcome (plan tt)).1 = .ok := (runPlan_ok_iff _ _).mpr h
    simp [exitCode, runTarget, hok]
  · rintro ⟨t0, ht0, hf⟩
    have hne : (runPlan outcome (plan tt)).1 ≠ .ok := by
      intro hok
      exact hf ((runPlan_ok_iff _ _).mp hok t0 ht0)
    cases hres : (runPlan outcome (plan tt)).1 with
    | ok => exact absurd hres hne
    | failed t e =>
      rcases runPlan_failed_sound outcome (plan tt) t e hres with ⟨_, hout⟩
      exact ⟨by simp [exitCode, runTarget, hres], t, e, hout,
        by simp [stderrLines, runTarget, hres]⟩

/-- C5: the scripts concatenation preserves the declared source order
exactly: bootstrap.js precedes app.js in the declared list and in the
bundled output stream. -/
theorem scripts_bundle_preserves_declared_order (contents : String → String) :
    bundleConcat contents scriptsSources =
      [contents "./node_modules/bootstrap/dist/js/bootstrap.js",
       contents "./resources/scripts/app.js"] ∧
    scriptsSources.indexOf "./node_modules/bootstrap/dist/js/bootstrap.js" <
      scriptsSources.indexOf "./resources/scripts/app.js" ∧
    (bundleConcat contents scriptsSources)[0]? =
      some (contents "./node_modules/bootstrap/dist/js/bootstrap.js") ∧
    (bundleConcat contents scriptsSources)[1]? =
      some (contents "./resources/scripts/app.js") :=
  ⟨rfl, by decide, rfl, rfl⟩

/-- No declared task of the repository lists `pagespeed` or `pageres` as a
prerequisite, and neither appears in the plan of any other target. -/
theorem plan_avoids_audit_tasks (tt : TaskName) (h1 : tt ≠ .pagespeed)
    (h2 : tt ≠ .pageres) :
    ∀ t ∈ (plan tt).flatten, t ≠ .pagespeed ∧ t ≠ .pageres := by
  cases tt
  case pagespeed => exact absurd rfl h1
  case pageres => exact absurd rfl h2
  all_goals decide

/-- C7: a failure of `pagespeed` or `pageres` never blocks or fails any
other task: no task declares them as prerequisites, they are in no other
target's plan, and a run of any other target succeeds even when both remote
audits fail. -/
theorem audit_task_failure_isolated (tt : TaskName) (h1 : tt ≠ .pagespeed)
    (h2 : tt ≠ .pageres) (outcome : Outcome)
    (hiso : ∀ t, outcome t ≠ none → t = .pagespeed ∨ t = .pageres) :
    (∀ t : TaskName, TaskName.pagespeed ∉ deps t ∧ TaskName.pageres ∉ deps t) ∧
    TaskName.pagespeed ∉ (plan tt).flatten ∧
    TaskName.pageres ∉ (plan tt).flatten ∧
    (runPlan outcome (plan tt)).1 = .ok := by
  have hav := plan_avoids_audit_tasks tt h1 h2
  refine ⟨by intro t; cases t <;> decide, ?_, ?_, ?_⟩
  · intro hmem; exact (hav _ hmem).1 rfl
  · intro hmem; exact (hav _ hmem).2 rfl
  · apply (runPlan_ok_iff _ _).mpr
    intro t ht
    by_contra hne
    rcases hiso t hne with h | h
    · exact (hav t ht).1 h
    · exact (hav t ht).2 h

/-- The C7 isolation contract applied to the `default` target with both
remote audits failing. -/
theorem audit_task_failure_isolated_at_default :
    (∀ t : TaskName, TaskName.pagespeed ∉ deps t ∧ TaskName.pageres ∉ deps t) ∧
    TaskName.pagespeed ∉ (plan .default).flatten ∧
    TaskName.pageres ∉ (plan .default).flatten ∧
    (runPlan failAudits (plan .default)).1 = .ok :=
  audit_task_failure_isolated .default (by decide) (by decide) failAudits
    (by intro t; cases t <;> decide)

/-- C8: `serve` declares no prerequisite and its invocation runs no build
task: the only started task is `serve` itself. -/
theorem serve_has_no_prereqs_and_runs_no_build :
    deps .serve = [] ∧ plan .serve = [[.serve]] ∧
    (∀ t ∈ (plan .serve).flatten, t = .serve) ∧
    (runPlan allOk (plan .serve)).2 = [.serve] := by
  decide

/-- C10: the `lint` task fails on an eslint error only when browserSync is
inactive; with browserSync active it never fails, and no run it belongs to
fails on its account. -/
theorem lint_fails_only_without_browsersync (eslintError : Bool) :
    lintFails true eslintError = false ∧
    lintFails false eslintError = eslintError ∧
    lintOutcome true eslintError = none ∧
    ∀ tt : TaskName,
      (runPlan (fun t => if t = .lint then lintOutcome true eslintError else none)
        (plan tt)).1 = .ok := by
  refine ⟨by simp [lintFails], by simp [lintFails],
    by simp [lintOutcome, lintFails], ?_⟩
  intro tt
  apply (runPlan_ok_iff _ _).mpr
  intro t _
  by_cases ht : t = .lint
  · simp [ht, lintOutcome, lintFails]
  · simp [ht]

/-- The bound task lists of every serve binding are duplicate-free. -/
theorem serveBindings_tasks_nodup : ∀ b ∈ serveBindings, b.tasks.Nodup := by
  decide

/-- Success case of the watch handler: the bound tasks run once each and
one reload notification follows all of them. -/
theorem handleChange_success (outcome : Outcome) (b : WatchBinding)
    (hall : ∀ t ∈ b.tasks, outcome t = none) :
    handleChange outcome b =
      (b.tasks.map fun t => WEv.run t true) ++ [WEv.reload] := by
  have hmap : (b.tasks.map fun t => WEv.run t (outcome t).isNone) =
      b.tasks.map fun t => WEv.run t true :=
    List.map_congr_left fun t ht => by rw [hall t ht]; rfl
  have hcond : (b.tasks.all fun t => (outcome t).isNone) = true := by
    rw [List.all_eq_true]
    intro t ht
    rw [hall t ht]
    rfl
  simp [handleChange, hcond, hmap]

/-- Failure case of the watch handler: no reload notification is emitted. -/
theorem handleChange_failure (outcome : Outcome) (b : WatchBinding)
    (hfail : ∃ t ∈ b.tasks, outcome t ≠ none) :
    WEv.reload ∉ handleChange outcome b := by
  rcases hfail with ⟨t0, ht0, hf⟩
  have hcond : (b.tasks.all fun t => (outcome t).isNone) = false := by
    cases hx : b.tasks.all fun t => (outcome t).isNone with
    | false => rfl
    | true =>
      have := List.all_eq_true.mp hx t0 ht0
      exact absurd (Option.isNone_iff_eq_none.mp this) hf
  simp only [handleChange, hcond, Bool.false_eq_true, if_false]
  intro hmem
  rcases List.mem_map.mp hmem with ⟨u, _, hu⟩
  exact WEv.noConfusion hu

/-- C3: for every binding of the serve watcher and every matched change
event: when all bound tasks succeed the handler runs each bound task
exactly once and emits exactly one reload notification after all of them;
when any bound task fails no reload notification is emitted. -/
theorem watch_reload_once_after_success_only (outcome : Outcome)
    (b : WatchBinding) (hb : b ∈ serveBindings) :
    ((∀ t ∈ b.tasks, outcome t = none) →
      handleChange outcome b =
        (b.tasks.map fun t => WEv.run t true) ++ [WEv.reload] ∧
      (handleChange outcome b).count WEv.reload = 1 ∧
      (handleChange outcome b).getLast? = some WEv.reload ∧
      ∀ t ∈ b.tasks, (handleChange outcome b).count (WEv.run t true) = 1) ∧
    ((∃ t ∈ b.tasks, outcome t ≠ none) →
      WEv.reload ∉ handleChange outcome b) := by
  constructor
  · intro hall
    have heq := handleChange_success outcome b hall
    have hnd : b.tasks.Nodup := serveBindings_tasks_nodup b hb
    have h0 : (b.tasks.map fun t => WEv.run t true).count WEv.reload = 0 := by
      rw [List.count_eq_zero]
      intro hmem
      rcases List.mem_map.mp hmem with ⟨u, _, hu⟩
      exact WEv.noConfusion hu
    refine ⟨heq, ?_, ?_, ?_⟩
    · rw [heq, List.count_append, h0]
      rfl
    · rw [heq]
      simp
    · intro t ht
      rw [heq, List.count_append]
      have hinj : Function.Injective fun u => WEv.run u true := by
        intro a b h
        injection h
      have h1 : ((b.tasks.map fun u => WEv.run u true)).count (WEv.run t true) = 1 := by
        rw [List.count_map_of_injective _ _ hinj t]
        exact List.count_eq_one_of_mem hnd ht
      have h2 : ([WEv.reload] : List WEv).count (WEv.run t true) = 0 := by
        rw [List.count_eq_zero]
        intro hmem
        rcases List.mem_singleton.mp hmem with h
        exact WEv.noConfusion h
      rw [h1, h2]
  · exact handleChange_failure outcome b

/-- The C3 contract applied to the styles binding with every task
succeeding. -/
theorem watch_reload_once_after_success_only_at_styles :
    handleChange allOk bindingStyles =
      (bindingStyles.tasks.map fun t => WEv.run t true) ++ [WEv.reload] :=
  ((watch_reload_once_after_success_only allOk bindingStyles
    (by decide)).1 (fun _ _ => rfl)).1

/-- A hit in a good cache returns the optimized contents. -/
theorem cacheLookup_good (opt : String → String) (cache : List (String × String))
    (hg : CacheGood opt cache) (f v : String) (h : cacheLookup cache f = some v) :
    v = opt f := by
  induction cache with
  | nil => simp [cacheLookup] at h
  | cons kv rest ih =>
    rcases kv with ⟨k, w⟩
    simp only [cacheLookup] at h
    split at h
    · next hk =>
      have hv := Option.some.inj h
      have hw := hg (k, w) (List.mem_cons_self _ _)
      subst hk
      rw [← hv]
      simpa using hw
    · next hk =>
      exact ih (fun kv hm => hg kv (List.mem_cons_of_mem _ hm)) h

/-- Caching the optimizer's own output keeps a cache good. -/
theorem CacheGood.cons (opt : String → String) (cache : List (String × String))
    (f : String) (hg : CacheGood opt cache) :
    CacheGood opt ((f, opt f) :: cache) := by
  intro kv hkv
  rcases List.mem_cons.mp hkv with h | h
  · rw [h]
  · exact hg kv h

/-- A run of the `images` task keeps the content cache good. -/
theorem runImages_cache_good (opt : String → String) (cache : List (String × String))
    (fs : List String) (hg : CacheGood opt cache) :
    CacheGood opt (runImages opt cache fs).cache := by
  induction fs generalizing cache with
  | nil => exact hg
  | cons f fs ih =>
    cases hc : cacheLookup cache f with
    | some o => simpa [runImages, hc] using ih cache hg
    | none => simpa [runImages, hc] using ih _ (CacheGood.cons opt cache f hg)

/-- With a good cache the outputs are the optimized files in input order,
cache hit or miss alike. -/
theorem runImages_outputs (opt : String → String) (cache : List (String × String))
    (fs : List String) (hg : CacheGood opt cache) :
    (runImages opt cache fs).outputs = fs.map opt := by
  induction fs generalizing cache with
  | nil => rfl
  | cons f fs ih =>
    cases hc : cacheLookup cache f with
    | some o =>
      have ho : o = opt f := cacheLookup_good opt cache hg f o hc
      simp [runImages, hc, ho, ih cache hg]
    | none =>
      simp [runImages, hc, ih _ (CacheGood.cons opt cache f hg)]

/-- After a run, every processed file (and every previously cached one) is
in the cache. -/
theorem runImages_lookup_after (opt : String → String) (cache : List (String × String))
    (fs : List String) (f : String)
    (h : f ∈ fs ∨ cacheLookup cache f ≠ none) :
    cacheLookup (runImages opt cache fs).cache f ≠ none := by
  induction fs generalizing cache with
  | nil =>
    rcases h with h | h
    · simp at h
    · simpa [runImages] using h
  | cons f' fs ih =>
    cases hc : cacheLookup cache f' with
    | some o =>
      have hgoal : cacheLookup (runImages opt cache fs).cache f ≠ none := by
        apply ih cache
        rcases h with h | h
        · rcases List.mem_cons.mp h with h | h
          · subst h; right; rw [hc]; simp
          · left; exact h
        · right; exact h
      simpa [runImages, hc] using hgoal
    | none =>
      have hgoal : cacheLookup (runImages opt ((f', opt f') :: cache) fs).cache f ≠ none := by
        apply ih ((f', opt f') :: cache)
        rcases h with h | h
        · rcases List.mem_cons.mp h with h | h
          · subst h; right; simp [cacheLookup]
          · left; exact h
        · right
          by_cases hf : f' = f
          · simp [cacheLookup, hf]
          · simpa [cacheLookup, hf] using h
      simpa [runImages, hc] using hgoal

/-- When every input is already cached, a run invokes the external tool
zero times and leaves the cache unchanged. -/
theorem runImages_no_calls (opt : String → String) (cache : List (String × String))
    (fs : List String) (h : ∀ f ∈ fs, cacheLookup cache f ≠ none) :
    (runImages opt cache fs).toolCalls = 0 ∧
    (runImages opt cache fs).cache = cache := by
  induction fs with
  | nil => exact ⟨rfl, rfl⟩
  | cons f fs ih =>
    cases hc : cacheLookup cache f with
    | none => exact absurd hc (h f (List.mem_cons_self _ _))
    | some o =>
      have hrest := ih fun g hg => h g (List.mem_cons_of_mem _ hg)
      constructor
      · simpa [runImages, hc] using hrest.1
      · simpa [runImages, hc] using hrest.2

/-- C6: re-running `images` on the already-optimized file set is
idempotent: the outputs are byte-identical to the first run's and the
repeat run performs zero additional external optimizer invocations. -/
theorem images_rerun_idempotent (opt : String → String) (files : List String) :
    (runImages opt (runImages opt [] files).cache files).outputs =
      (runImages opt [] files).outputs ∧
    (runImages opt (runImages opt [] files).cache files).toolCalls = 0 := by
  have hg0 : CacheGood opt [] := by intro kv hkv; simp at hkv
  have hg1 : CacheGood opt (runImages opt [] files).cache :=
    runImages_cache_good opt [] files hg0
  have hlook : ∀ f ∈ files, cacheLookup (runImages opt [] files).cache f ≠ none :=
    fun f hf => runImages_lookup_after opt [] files f (Or.inl hf)
  constructor
  · rw [runImages_outputs opt _ files hg1, runImages_outputs opt [] files hg0]
  · exact (runImages_no_calls opt _ files hlook).1

/-- A path under `public/images` or `public/favicon` is not deleted by
`clean`. -/
theorem cleanDeletes_public_other (p : List String)
    (h : pathUnder ["public", "images"] p = true ∨
         pathUnder ["public", "favicon"] p = true) :
    cleanDeletes p = false := by
  match p with
  | [] => rcases h with h | h <;> simp [pathUnder] at h
  | [q] => rcases h with h | h <;> simp [pathUnder] at h
  | q1 :: q2 :: qs =>
    have h12 : q1 = "public" ∧ (q2 = "images" ∨ q2 = "favicon") := by
      rcases h with h | h <;> simp [pathUnder] at h
      · exact ⟨h.1.symm, Or.inl h.2.symm⟩
      · exact ⟨h.1.symm, Or.inr h.2.symm⟩
    rcases h12 with ⟨h1, h2⟩
    subst h1
    rcases h2 with h2 | h2 <;> subst h2 <;>
      simp [cleanDeletes, cleanPatterns, pathUnder]

/-- C9: `clean` deletes exactly what lies under `.tmp`, `public/styles`
and `public/scripts`, and nothing else: any path of the output tree under
`public/images` or `public/favicon` survives a run of `clean` unchanged. -/
theorem clean_deletes_exactly_and_preserves_rest (fs : List (List String))
    (p : List String) (hp : p ∈ fs) :
    cleanPaths = cleanPatterns.map (String.intercalate "/") ∧
    (p ∈ runClean fs ↔ cleanDeletes p = false) ∧
    (cleanDeletes p = true → p ∉ runClean fs) ∧
    ((pathUnder ["public", "images"] p = true ∨
      pathUnder ["public", "favicon"] p = true) → p ∈ runClean fs) := by
  have hmem : p ∈ runClean fs ↔ cleanDeletes p = false := by
    rw [runClean, List.mem_filter]
    constructor
    · rintro ⟨_, h⟩; simpa using h
    · intro h; exact ⟨hp, by simpa using h⟩
  refine ⟨by decide, hmem, ?_, ?_⟩
  · intro hdel hin
    rw [hmem, hdel] at hin
    exact absurd hin (by simp)
  · intro h
    exact hmem.mpr (cleanDeletes_public_other p h)

/-- The C9 frame property applied to a demonstration output tree: the
prior-run image output survives `clean`. -/
theorem clean_deletes_exactly_and_preserves_rest_at_images :
    cleanPaths = cleanPatterns.map (String.intercalate "/") ∧
    (["public", "images", "logo.png"] ∈ runClean demoFs ↔
      cleanDeletes ["public", "images", "logo.png"] = false) ∧
    (cleanDeletes ["public", "images", "logo.png"] = true →
      ["public", "images", "logo.png"] ∉ runClean demoFs) ∧
    ((pathUnder ["public", "images"] ["public", "images", "logo.png"] = true ∨
      pathUnder ["public", "favicon"] ["public", "images", "logo.png"] = true) →
      ["public", "images", "logo.png"] ∈ runClean demoFs) :=
  clean_deletes_exactly_and_preserves_rest demoFs
    ["public", "images", "logo.png"] (by decide)

end CraftGulp
